import Mathlib

/-!
Verification of the event synchronization and caching subsystem of a
calendar service.  The Go sources are shallowly embedded: instants of
time.Time are modeled as integer nanosecond counts from the Go zero time
(January 1 of year 1, 00:00:00), so that Before/After are integer
comparisons and IsZero is comparison with 0.  Pointer-typed optional
values become Option, and functions that can hit a nil-pointer
dereference return Option results where none marks the fault.
-/

namespace CisCal

def nsPerMinute : Int := 60 * 1000000000

def nsPerDay : Int := 86400 * 1000000000

/-- time.Minute * 5, the free-slot emission threshold. -/
def fiveMinutes : Int := 5 * nsPerMinute

/-- Days from 1970-01-01 to the civil date (y, m, d) in the proleptic
Gregorian calendar, for m between 1 and 12 (standard era-based formula,
matching the day arithmetic of the Go time package). -/
def daysFromCivil (y m d : Int) : Int :=
  let yy := y - (if m ≤ 2 then 1 else 0)
  let era := Int.fdiv yy 400
  let yoe := yy - era * 400
  let mp := Int.emod (m + 9) 12
  let doy := Int.fdiv (153 * mp + 2) 5 + d - 1
  let doe := yoe * 365 + Int.fdiv yoe 4 - Int.fdiv yoe 100 + doy
  era * 146097 + doe - 719468

/-- Model of Go time.Date(y, m, d, 0, 0, 0, nanos, loc): the month is
normalized first, then day overflow is absorbed linearly, exactly as the
Go constructor does. -/
def goDateNanos (y m d nanos : Int) : Int :=
  let m0 := m - 1
  let yAdj := y + Int.fdiv m0 12
  let mAdj := Int.emod m0 12 + 1
  let days := daysFromCivil yAdj mAdj 1 + (d - 1)
  (days - daysFromCivil 1 1 1) * nsPerDay + nanos

/-- The one used field of the protobuf CustomerAnnotation message. -/
structure CustomerAnnotation where
  customerId : String := ""
  deriving Repr, DecidableEq

/-- repo.Event. -/
structure Event where
  id : String := ""
  summary : String := ""
  description : String := ""
  startTime : Int := 0
  endTime : Option Int := none
  calendarId : String := ""
  fullDayEvent : Bool := false
  isFree : Bool := false
  createTime : Int := 0
  resources : List String := []
  customerAnnotation : Option CustomerAnnotation := none
  deriving Repr, DecidableEq

/-- repo.EventSearchOptions; every field is a Go pointer, hence Option. -/
structure EventSearchOptions where
  fromTime : Option Int := none
  toTime : Option Int := none
  eventID : Option String := none
  customerID : Option String := none
  searchText : Option String := none
  deriving Repr, DecidableEq

/-- The lock-guarded state of googleEventCache that the claims concern. -/
structure CacheState where
  minTime : Int := 0
  syncToken : String := ""
  events : List Event := []
  deriving Repr, DecidableEq

/-- config.ICalConfig. -/
structure ICalConfig where
  name : String := ""
  color : String := ""
  urls : List String := []
  hidden : Bool := false
  pollInterval : String := ""
  deriving Repr, DecidableEq

/-- Model of strings.Contains: the needle is an infix of the haystack. -/
def strContains (s pat : String) : Bool :=
  decide (List.IsInfix pat.toList s.toList)

/-- repo.EventMatches as in the current revision with customer and text
filters.  The result is none when the Go code would dereference a nil
pointer: when search.FromTime is nil, or when search.CustomerID is set
while the event carries no customer annotation (the code assigns
matches = false but then still reads CustomerAnnotation.CustomerId). -/
def EventMatches (evt : Event) (search : EventSearchOptions) : Option Bool := do
  let ft ← search.fromTime
  let matches0 : Bool :=
    match evt.endTime with
    | some et => decide (ft < et)
    | none => decide (ft < evt.startTime)
  let matches1 : Bool :=
    match search.toTime with
    | some tt => if decide (tt < evt.startTime) then false else matches0
    | none => matches0
  let matches2 : Bool :=
    match search.eventID with
    | some i => if evt.id ≠ i then false else matches1
    | none => matches1
  let matches3 : Bool ←
    match search.customerID with
    | some cid =>
      match evt.customerAnnotation with
      | none => none
      | some ca => some (if ca.customerId ≠ cid then false else matches2)
    | none => some matches2
  let matches4 : Bool :=
    match search.searchText with
    | some txt =>
      if !(strContains evt.summary.toLower txt.toLower)
          && !(strContains evt.description.toLower txt.toLower)
      then false else matches3
    | none => matches3
  return matches4

/-- The boolean value of the predicate on the non-faulting path. -/
def matchB (s : EventSearchOptions) (e : Event) : Bool :=
  (EventMatches e s).getD false

/-- The reference reading of section 3 of the specification: the cached
events satisfying the match predicate, in cache order. -/
def cacheFilter (s : EventSearchOptions) (events : List Event) : List Event :=
  events.filter (matchB s)

/-- The scan over the cached events inside tryLoadFromCache: an event
matching while an event ID is requested is returned alone at once;
otherwise matching events are accumulated.  A faulting predicate
evaluation faults the whole call. -/
def tryLoop (s : EventSearchOptions) : List Event → List Event → Option (List Event × Bool)
  | [], acc => some (acc.reverse, true)
  | e :: rest, acc =>
    match EventMatches e s with
    | none => none
    | some m =>
      if m && s.eventID.isSome then some ([e], true)
      else if m then tryLoop s rest (e :: acc)
      else tryLoop s rest acc

/-- googleEventCache.tryLoadFromCache.  The second component of the
result is the served-from-cache report. -/
def tryLoadFromCacheGo (st : CacheState) (search : Option EventSearchOptions) :
    Option (List Event × Bool) :=
  match search with
  | none => some ([], false)
  | some s =>
    match s.fromTime with
    | none => some ([], false)
    | some ft =>
      if decide (ft < st.minTime) && !(decide (st.minTime = 0)) then some ([], false)
      else tryLoop s st.events []

/-- googleEventCache.evictEvents.  The wall-clock read and midnight
truncation at the top of the function are abstracted into the
currentMidnight parameter; everything below the lock is embedded as
written: skip when fewer than 500 events are cached, otherwise keep an
event when its start is not after midnight, or when it has an end that
is not before midnight, and advance minTime to midnight. -/
def evictEvents (currentMidnight : Int) (st : CacheState) : CacheState :=
  if st.events.length < 500 then st
  else
    { st with
      events := st.events.filter (fun evt =>
        !(decide (currentMidnight < evt.startTime))
        || (match evt.endTime with
            | some et => !(decide (et < currentMidnight))
            | none => false)),
      minTime := currentMidnight }

/-- The request parameters placed on the upstream Events.List call. -/
structure ListCall where
  showDeleted : Option Bool := none
  singleEvents : Option Bool := none
  timeMin : Option Int := none
  syncToken : Option String := none
  deriving Repr, DecidableEq

/-- The head of googleEventCache.loadEvents in the current cache
revision: state preparation and construction of the upstream listing
call, before the page loop runs.  The wall clock is abstracted into the
civil date (nowY, nowM, nowD) of now in the local zone.  With an empty
sync token the events are cleared and minTime becomes the current local
midnight shifted by AddDate(-1, 0, 0); since the midnight decomposes to
exactly (nowY, nowM, nowD), that shift is Date(nowY - 1, nowM, nowD). -/
def loadEventsSetup (st : CacheState) (nowY nowM nowD : Int) : CacheState × ListCall :=
  if st.syncToken = "" then
    let startOfCache := goDateNanos (nowY - 1) nowM nowD 0
    ({ st with events := [], minTime := startOfCache },
     { showDeleted := some false, singleEvents := some false,
       timeMin := some startOfCache })
  else
    (st, { syncToken := some st.syncToken })

/-- Stand-in for protojson.Marshal on the CustomerAnnotation message: a
concrete injective encoding; the only property the development relies on
is that protojsonParseCA inverts it. -/
def protojsonCA (a : CustomerAnnotation) : String :=
  "customerId:" ++ a.customerId

/-- Stand-in for protojson.Unmarshal on the CustomerAnnotation message. -/
def protojsonParseCA (s : String) : Option CustomerAnnotation :=
  if strContains s "customerId:" then some ⟨s.drop 11⟩ else none

/-- Stand-in for json.Marshal of a string slice; only key presence
matters for the claims. -/
def jsonStrings (l : List String) : String :=
  String.intercalate "," l

/-- getExtendedProps from the google backend: the shared extended
properties written on event creation and update.  The Marshal error
branches are unreachable for valid messages and are not modeled. -/
def getExtendedProps (resources : List String) (data : Option CustomerAnnotation) :
    List (String × String) :=
  (match data with
   | none => []
   | some a =>
     (if a.customerId ≠ "" then [("tkd.calendar.v1.customerId", a.customerId)] else [])
     ++ [("tkd.calendar.v1.CustomerAnnotation", protojsonCA a)])
  ++ (if resources.isEmpty then [] else [("tkd.calendar.v1.ResourceNames", jsonStrings resources)])

/-- The customer-annotation extraction step of googleEventToModel: the
shared extended properties are consulted, under the key exactly as it is
spelled in the source, and an Unmarshal failure yields none. -/
def extractCustomerAnnotation (shared : List (String × String)) : Option CustomerAnnotation :=
  if shared.isEmpty then none
  else
    match shared.lookup "tkd.calendar.v1.CustomerAnnoation" with
    | some v => protojsonParseCA v
    | none => none

/-- timeRange.includes: half-open containment test. -/
def timeRangeIncludes (lo hi t : Int) : Bool :=
  (decide (lo = t) || decide (lo < t)) && decide (t < hi)

/-- The overlap test of calculateFreeSlots for an event with end et. -/
def eventOverlaps (startR endR : Int) (evt : Event) (et : Int) : Bool :=
  timeRangeIncludes startR endR evt.startTime
  || timeRangeIncludes startR endR et
  || timeRangeIncludes evt.startTime et startR
  || timeRangeIncludes evt.startTime et endR

/-- The filtering pass of calculateFreeSlots: full-day events and events
without an end (or with a zero end) are skipped, the rest are kept when
they overlap the requested range. -/
def filterEvents (startR endR : Int) (events : List Event) : List Event :=
  events.filter (fun evt =>
    match evt.endTime with
    | none => false
    | some et =>
      if evt.fullDayEvent || decide (et = 0) then false
      else eventOverlaps startR endR evt et)

/-- Dereference of the EndTime pointer; in calculateFreeSlots it is only
reached for filtered events, which always carry an end. -/
def endD (e : Event) : Int := e.endTime.getD 0

/-- EventList.Less: the comparison handed to sort.Sort. -/
def eventLess (a b : Event) : Bool :=
  decide (a.startTime < b.startTime) || decide (endD a < endD b)

def insertByLess (e : Event) : List Event → List Event
  | [] => [e]
  | f :: rest => if eventLess f e then f :: insertByLess e rest else e :: f :: rest

/-- Model of sort.Sort(filtered) with EventList.Less.  The Go sort
algorithm is unspecified for this comparison, which is not a strict weak
order; insertion sort is one admissible implementation, and the sort
check kept inside freeSlotsLoop guards the only ordering property the
code relies on. -/
def sortEvents : List Event → List Event
  | [] => []
  | e :: rest => insertByLess e (sortEvents rest)

/-- A free pseudo-event as constructed by calculateFreeSlots.  The
display-only Summary text (a formatted duration) is not modeled. -/
def slotEvent (calID : String) (s e2 : Int) (i : String) : Event :=
  { id := i, calendarId := calID, startTime := s, endTime := some e2, isFree := true }

/-- The clamp written as, if x is after hi then hi else x. -/
def clampHi (hi x : Int) : Int := if decide (hi < x) then hi else x

/-- The clamp written as, if x is before lo then lo else x. -/
def clampLo (lo x : Int) : Int := if decide (x < lo) then lo else x

/-- The main loop of calculateFreeSlots over the sorted filtered events:
prev is the previous element when the index is positive; the result is
none on the invalid-slice-sort error return.  The start of a candidate
slot is the range start, or the end of the previous event, clamped to
the range end; its end is the start of the current event clamped into
the range; a slot is emitted when it exceeds five minutes. -/
def freeSlotsLoop (calID : String) (startR endR : Int) :
    Nat → Option Event → List Event → Option (List Event)
  | _, _, [] => some []
  | i, prev, e :: rest =>
    let startOfSlot := clampHi endR (match prev with | none => startR | some p => endD p)
    let sortOk : Bool := match prev with
      | none => true
      | some p => !(decide (e.startTime < p.startTime))
    if sortOk then
      let endOfSlot := clampHi endR (clampLo startR e.startTime)
      match freeSlotsLoop calID startR endR (i + 1) (some e) rest with
      | none => none
      | some slots =>
        if decide (fiveMinutes < endOfSlot - startOfSlot) then
          some (slotEvent calID startOfSlot endOfSlot ("free-slot-" ++ toString i) :: slots)
        else some slots
    else none

/-- calculateFreeSlots: returns the combined sorted result list and the
emitted free slots, or none on the internal sort-error return. -/
def calculateFreeSlots (calID : String) (startR endR : Int) (events : List Event) :
    Option (List Event × List Event) :=
  let filtered := sortEvents (filterEvents startR endR events)
  match freeSlotsLoop calID startR endR 0 none filtered with
  | none => none
  | some loopSlots =>
    let slots :=
      match filtered.getLast? with
      | some lastEvt =>
        if decide (endD lastEvt < endR) then
          loopSlots ++ [slotEvent calID (endD lastEvt) endR "free-slot-end"]
        else loopSlots
      | none => loopSlots ++ [slotEvent calID startR endR "free-slot-end"]
    some (sortEvents (filtered ++ slots), slots)

/-- Property of every event surviving the free-slot filter: it carries
an end, the end is not before the start (data-model invariant), and the
end is not before the start of the requested range (a consequence of the
overlap test). -/
def freeSlotPre (startR : Int) (e : Event) : Prop :=
  ∃ t, e.endTime = some t ∧ e.startTime ≤ t ∧ startR ≤ t

/-- Lower edge for all slots still to be emitted by freeSlotsLoop from a
given loop position. -/
def freeSlotLowEdge (startR endR : Int) : Option Event → Int
  | none => startR
  | some p => min (max p.startTime startR) endR

/-- An item of a parsed iCal feed, as consumed by Repository.update:
property reads are Option, a none start marks the GetStartAt error and a
none end marks the GetEndAt error (which leaves the zero time). -/
structure IcalItem where
  itemId : String := ""
  summaryProp : Option String := none
  descriptionProp : Option String := none
  startAt : Option Int := none
  endAt : Option Int := none
  deriving Repr, DecidableEq

/-- The per-item conversion inside Repository.update; items without a
start time are skipped, a missing or zero end leaves EndTime nil. -/
def convertIcalItem (calName : String) (item : IcalItem) : Option Event :=
  match item.startAt with
  | none => none
  | some s =>
    let summary := match item.summaryProp with | some v => v | none => ""
    let description := match item.descriptionProp with
      | some v => if v ≠ "" then v else ""
      | none => ""
    let endTime : Option Int := match item.endAt with
      | some et => if decide (et = 0) then none else some et
      | none => none
    some { calendarId := calName, id := item.itemId, summary := summary,
           description := description, startTime := s, endTime := endTime,
           fullDayEvent := false, isFree := false }

/-- The per-feed fetch loop of Repository.update: every URL is fetched
and parsed (none marks a fetch error, whose events contribute nothing)
and the converted events are appended. -/
def updateFeed (cfg : ICalConfig) (fetch : String → Option (List IcalItem)) : List Event :=
  cfg.urls.foldl (fun acc url =>
    match fetch url with
    | none => acc
    | some items => acc ++ items.filterMap (convertIcalItem cfg.name)) []

/-- The skip test of Repository.update: a feed with a recorded last
update is skipped when its poll interval (default ten minutes, or the
parsed PollInterval, a parse error also skipping the feed) has not yet
elapsed. -/
def shouldSkipFeed (cfg : ICalConfig) (lastUpdates : String → Option Int)
    (now : Int) (parseDuration : String → Option Int) : Bool :=
  match lastUpdates cfg.name with
  | none => false
  | some lastT =>
    let interval? : Option Int :=
      if cfg.pollInterval = "" then some (10 * nsPerMinute)
      else parseDuration cfg.pollInterval
    match interval? with
    | none => true
    | some iv => decide (now < lastT + iv)

/-- The fresh events map built by one Repository.update cycle: an entry
exists exactly for the feeds that were not skipped and contributed at
least one event (feed names are unique, enforced by Add). -/
def buildEventsMap (cfgs : List ICalConfig) (lastUpdates : String → Option Int)
    (now : Int) (parseDuration : String → Option Int)
    (fetch : String → Option (List IcalItem)) : List (String × List Event) :=
  cfgs.filterMap (fun cfg =>
    if shouldSkipFeed cfg lastUpdates now parseDuration then none
    else
      let evs := updateFeed cfg fetch
      if evs.isEmpty then none else some (cfg.name, evs))

/-- Repository.update: the repository events map after one cycle.  The
final assignment replaces the whole map, so the previous map does not
contribute to the result. -/
def updateRepo (prevEvents : List (String × List Event)) (cfgs : List ICalConfig)
    (lastUpdates : String → Option Int) (now : Int)
    (parseDuration : String → Option Int)
    (fetch : String → Option (List IcalItem)) : List (String × List Event) :=
  buildEventsMap cfgs lastUpdates now parseDuration fetch

/-- The protobuf calendar assembled by the ical ListCalendars. -/
structure ProtoCalendar where
  id : String := ""
  name : String := ""
  timezone : String := ""
  color : String := ""
  readonly : Bool := false
  deriving Repr, DecidableEq

/-- ical Repository.ListCalendars: the result slice is allocated with
make and length len(cals), so positions of hidden feeds keep their nil
zero value; visible feeds are written in place. -/
def icalListCalendars (localZone : String) (cals : List ICalConfig) :
    List (Option ProtoCalendar) :=
  cals.map (fun c =>
    if c.hidden then none
    else some { id := c.name, name := c.name, timezone := localZone,
                color := c.color, readonly := true })

/-- A calendar as seen by the service layer index: the Readonly policy
flag and whether the embedded reader also implements Writer. -/
structure SvcCalendar where
  calId : String := ""
  readonly : Bool := false
  hasWriter : Bool := true
  deriving Repr, DecidableEq

/-- The error surface of CalendarService.MoveEvent. -/
inductive SvcError
  | invalidArgument
  | permissionDenied
  | readOnly
  | resolveFailed
  | upstream
  deriving Repr, DecidableEq

/-- CalendarService.MoveEvent.  The calendarById index is an association
list, resolveUserCalendar is the userCal oracle, and upstream is the
result of the backend move.  The first component reports whether the
upstream move was invoked; the cached events of the origin calendar are
touched only inside that upstream call. -/
def moveEvent (index : List (String × SvcCalendar)) (userCal : String → Option String)
    (srcCalId srcUserId tgtCalId tgtUserId : String)
    (upstream : Option Unit) : Bool × Except SvcError Unit :=
  let origin? : Except SvcError String :=
    if srcCalId ≠ "" then Except.ok srcCalId
    else match userCal srcUserId with
      | some c => Except.ok c
      | none => Except.error SvcError.resolveFailed
  match origin? with
  | Except.error e => (false, Except.error e)
  | Except.ok origin =>
    match index.lookup origin with
    | none => (false, Except.error SvcError.invalidArgument)
    | some calO =>
      if calO.readonly then (false, Except.error SvcError.permissionDenied)
      else
        let target? : Except SvcError String :=
          if tgtCalId ≠ "" then Except.ok tgtCalId
          else match userCal tgtUserId with
            | some c => Except.ok c
            | none => Except.error SvcError.resolveFailed
        match target? with
        | Except.error e => (false, Except.error e)
        | Except.ok target =>
          match index.lookup target with
          | none => (false, Except.error SvcError.invalidArgument)
          | some calT =>
            if calT.readonly then (false, Except.error SvcError.permissionDenied)
            else if !calT.hasWriter then (false, Except.error SvcError.readOnly)
            else
              match upstream with
              | none => (true, Except.error SvcError.upstream)
              | some _ => (true, Except.ok ())

/-! Concrete instances used by the counterexamples and witnesses. -/

/-- Minutes inside January 1 of year 2000 UTC, as built by makeTime in
the free-slot unit test. -/
def mkT (h m : Int) : Int := goDateNanos 2000 1 1 ((h * 60 + m) * nsPerMinute)

/-- An event carrying no customer annotation. -/
def evNoAnno : Event := { id := "e7", startTime := 50, endTime := some 200 }

/-- A search with a customer filter. -/
def srchCustomer : EventSearchOptions := { fromTime := some 10, customerID := some "cust-1" }

/-- A search with a customer filter whose lower bound equals the cache
minTime of stPanic, so the serving path is taken. -/
def srchCustomerAt100 : EventSearchOptions :=
  { fromTime := some 100, customerID := some "cust-1" }

/-- A cache holding one annotation-free event, minTime 100. -/
def stPanic : CacheState := { minTime := 100, events := [evNoAnno] }

/-- An event that ended before the eviction midnight 100. -/
def staleEv : Event := { id := "stale", startTime := 10, endTime := some 20 }

/-- An event entirely after the eviction midnight 100. -/
def futureEv : Event := { id := "future", startTime := 1000, endTime := some 2000 }

/-- A cache state at the eviction threshold: 500 events, one stale. -/
def stEvict : CacheState :=
  { minTime := 0, syncToken := "tok", events := staleEv :: List.replicate 499 futureEv }

/-- The subscribed feed of the C5 scenario. -/
def cfgFeed1 : ICalConfig := { name := "feed1", urls := ["u1"] }

/-- The events feed1 held before the refresh cycle. -/
def evPrev : Event :=
  { id := "prev-1", startTime := 100, endTime := some 200, calendarId := "feed1" }

/-- A visible feed configuration. -/
def cfgVisible : ICalConfig := { name := "a", color := "red" }

/-- A hidden feed configuration. -/
def cfgHidden : ICalConfig := { name := "b", hidden := true }

/-- The calendar index of the C9 witness: writable A, read-only B. -/
def idxMove : List (String × SvcCalendar) :=
  [("A", { calId := "A" }), ("B", { calId := "B", readonly := true })]

/-- A cached event matching the witness search below. -/
def evW : Event := { id := "w1", startTime := 150, endTime := some 250 }

/-- A cache with minTime 100 holding one event. -/
def stW : CacheState := { minTime := 100, events := [evW] }

/-- A search whose lower bound is exactly the cache minTime. -/
def sW : EventSearchOptions := { fromTime := some 100 }

/-- The booked event of the C3 witness scenario. -/
def evW3 : Event :=
  { id := "b", startTime := 50 * nsPerMinute, endTime := some (60 * nsPerMinute) }

def slotsW3 : List Event :=
  [slotEvent "w" 0 (50 * nsPerMinute) "free-slot-0",
   slotEvent "w" (60 * nsPerMinute) (120 * nsPerMinute) "free-slot-end"]

def resW3 : List Event :=
  [slotEvent "w" 0 (50 * nsPerMinute) "free-slot-0", evW3,
   slotEvent "w" (60 * nsPerMinute) (120 * nsPerMinute) "free-slot-end"]


/-! Theorems. -/

/-- On a search with a set lower bound, the predicate faults only when a
customer filter meets an annotation-free event. -/
lemma eventMatches_isSome (e : Event) (s : EventSearchOptions) (ft : Int)
    (hft : s.fromTime = some ft)
    (hsafe : s.customerID = none ∨ e.customerAnnotation.isSome) :
    (EventMatches e s).isSome := by
  unfold EventMatches
  rw [hft]
  rcases hsafe with h | h
  · rw [h]
    simp [Option.bind]
  · rcases hca : e.customerAnnotation with _ | ca
    · rw [hca] at h; simp at h
    · rcases hc : s.customerID with _ | cid <;> simp [Option.bind, hca]

/-- A matching event carries the requested event ID. -/
lemma eventMatches_id (e : Event) (s : EventSearchOptions) (i : String)
    (hid : s.eventID = some i) (h : EventMatches e s = some true) : e.id = i := by
  by_contra hne
  unfold EventMatches at h
  rcases hft : s.fromTime with _ | ft
  · rw [hft] at h; simp at h
  · rw [hft, hid] at h
    simp only [Option.some_bind, if_pos hne] at h
    rcases hc : s.customerID with _ | cid <;>
      rcases hca : e.customerAnnotation with _ | ca <;>
        rw [hc] at h <;> try rw [hca] at h
    all_goals simp_all
    all_goals (rcases hst : s.searchText with _ | txt <;> simp_all)

/-- A non-faulting predicate evaluation yields its boolean value. -/
lemma eventMatches_eq_some (e : Event) (s : EventSearchOptions)
    (h : (EventMatches e s).isSome) : EventMatches e s = some (matchB s e) := by
  rcases hm : EventMatches e s with _ | m
  · rw [hm] at h; simp at h
  · unfold matchB; rw [hm]; rfl

/-- Without an event ID filter the scan accumulates exactly the
filtered events, in order. -/
lemma tryLoop_noId (s : EventSearchOptions) (hs : s.eventID = none) :
    ∀ (evs acc : List Event), (∀ e ∈ evs, (EventMatches e s).isSome) →
    tryLoop s evs acc = some (acc.reverse ++ evs.filter (matchB s), true) := by
  intro evs
  induction evs with
  | nil => intro acc _; simp [tryLoop]
  | cons e rest ih =>
    intro acc hsafe
    have he := eventMatches_eq_some e s (hsafe e (by simp))
    have hrest : ∀ e2 ∈ rest, (EventMatches e2 s).isSome :=
      fun e2 h2 => hsafe e2 (by simp [h2])
    rcases hm : matchB s e with _ | _
    · rw [hm] at he
      have hstep : tryLoop s (e :: rest) acc = tryLoop s rest acc := by
        simp [tryLoop, he]
      rw [hstep, ih acc hrest]
      simp [List.filter_cons, hm]
    · rw [hm] at he
      have hstep : tryLoop s (e :: rest) acc = tryLoop s rest (e :: acc) := by
        simp [tryLoop, he, hs]
      rw [hstep, ih (e :: acc) hrest]
      simp [List.filter_cons, hm]

/-- With an event ID filter and distinct cached IDs, the early return on
the first match coincides with the filtered events. -/
lemma tryLoop_withId (s : EventSearchOptions) (i : String) (hs : s.eventID = some i) :
    ∀ evs : List Event, (∀ e ∈ evs, (EventMatches e s).isSome) →
    (evs.map Event.id).Nodup →
    tryLoop s evs [] = some (evs.filter (matchB s), true) := by
  intro evs
  induction evs with
  | nil => intro _ _; simp [tryLoop]
  | cons e rest ih =>
    intro hsafe hnodup
    have he := eventMatches_eq_some e s (hsafe e (by simp))
    have hrest : ∀ e2 ∈ rest, (EventMatches e2 s).isSome :=
      fun e2 h2 => hsafe e2 (by simp [h2])
    have hnodup2 : (rest.map Event.id).Nodup := by
      rw [List.map_cons, List.nodup_cons] at hnodup
      exact hnodup.2
    rcases hm : matchB s e with _ | _
    · rw [hm] at he
      have hstep : tryLoop s (e :: rest) [] = tryLoop s rest [] := by
        simp [tryLoop, he]
      rw [hstep, ih hrest hnodup2]
      simp [List.filter_cons, hm]
    · rw [hm] at he
      have hfr : rest.filter (matchB s) = [] := by
        rw [List.filter_eq_nil_iff]
        intro e2 h2 hm2
        have h2some : EventMatches e2 s = some true := by
          have h3 := eventMatches_eq_some e2 s (hrest e2 h2)
          rwa [hm2] at h3
        have hid2 : e2.id = i := eventMatches_id e2 s i hs h2some
        have hid1 : e.id = i := eventMatches_id e s i hs he
        rw [List.map_cons, List.nodup_cons] at hnodup
        exact hnodup.1 (by rw [hid1, ← hid2]; exact List.mem_map_of_mem Event.id h2)
      have hstep : tryLoop s (e :: rest) [] = some ([e], true) := by
        simp [tryLoop, he, hs]
      rw [hstep]
      simp [List.filter_cons, hm, hfr]

/-- C1 amended.  Original claim: a search with a non-nil lower bound not
before a non-zero minTime is served from cache with exactly the events
satisfying the section 3 predicate, boundary equality included, and a
nil lower bound or a lower bound strictly below a non-zero minTime is
not served.  The original statement fails when a customer filter meets a
cached event without annotation, where the predicate faults (see the
counterexample); the claim holds whenever the predicate cannot fault,
that is when no customer filter is set or every cached event carries an
annotation, under the data-model invariant that cached event IDs are
unique. -/
theorem tryLoadFromCache_spec (st : CacheState) (s : EventSearchOptions)
    (hnodup : (st.events.map Event.id).Nodup)
    (hsafe : s.customerID = none ∨ ∀ e ∈ st.events, e.customerAnnotation.isSome) :
    (s.fromTime = none → tryLoadFromCacheGo st (some s) = some ([], false))
    ∧ (∀ ft, s.fromTime = some ft → ft < st.minTime → st.minTime ≠ 0 →
        tryLoadFromCacheGo st (some s) = some ([], false))
    ∧ (∀ ft, s.fromTime = some ft → (st.minTime ≤ ft ∨ st.minTime = 0) →
        tryLoadFromCacheGo st (some s) = some (cacheFilter s st.events, true)) := by
  refine ⟨?_, ?_, ?_⟩
  · intro h
    simp [tryLoadFromCacheGo, h]
  · intro ft hft hlt hnz
    simp [tryLoadFromCacheGo, hft, hlt, hnz]
  · intro ft hft hge
    have hcond : (decide (ft < st.minTime) && !decide (st.minTime = 0)) = false := by
      rcases hge with h | h <;> simp [h]
    have hsafeAll : ∀ e ∈ st.events, (EventMatches e s).isSome := by
      intro e he
      apply eventMatches_isSome e s ft hft
      rcases hsafe with h | h
      · exact Or.inl h
      · exact Or.inr (h e he)
    have hserve : tryLoadFromCacheGo st (some s) = tryLoop s st.events [] := by
      simp only [tryLoadFromCacheGo]
      rw [hft]
      show (if (decide (ft < st.minTime) && !decide (st.minTime = 0)) = true
          then some ([], false) else tryLoop s st.events []) = tryLoop s st.events []
      rw [hcond]
      exact if_neg Bool.false_ne_true
    rw [hserve]
    rcases hid : s.eventID with _ | i
    · rw [tryLoop_noId s hid st.events [] hsafeAll]
      rfl
    · rw [tryLoop_withId s i hid st.events hsafeAll hnodup]
      rfl

/-- C1 witness: a lower bound exactly equal to the non-zero minTime is a
cache hit returning the filtered events. -/
theorem tryLoadFromCache_spec_witness :
    tryLoadFromCacheGo stW (some sW) = some ([evW], true) := by
  have h := (tryLoadFromCache_spec stW sW (by decide) (Or.inl rfl)).2.2 100 rfl
    (Or.inl (by decide))
  rw [h]
  decide

/-- C7.  The claim says the match predicate is total and that an event
without a customer annotation simply does not match a customer_id
search.  The code instead dereferences the nil annotation pointer after
having noted it is nil: at the concrete event evNoAnno and search
srchCustomer the evaluation faults (modeled as none) instead of
returning the no-match verdict some false. -/
theorem eventMatches_customer_faults : EventMatches evNoAnno srchCustomer = none := by
  decide

/-- C2.  The claim says eviction with at least 500 cached events removes
exactly the events that ended strictly before the current midnight and
that afterwards no retained event ended before minTime.  At the concrete
state stEvict (500 events) with midnight 100, the event staleEv ended at
20, before the midnight, yet eviction retains it while advancing minTime
to 100, because the first keep condition tests the start time with an
inverted comparison. -/
theorem evictEvents_keeps_ended_event :
    staleEv ∈ (evictEvents 100 stEvict).events
    ∧ (evictEvents 100 stEvict).minTime = 100
    ∧ endD staleEv < 100 := by
  have hlen : stEvict.events.length = 500 := by
    show (staleEv :: List.replicate 499 futureEv).length = 500
    rw [List.length_cons, List.length_replicate]
  have hnot : ¬ stEvict.events.length < 500 := by omega
  refine ⟨?_, ?_, by decide⟩
  · unfold evictEvents
    rw [if_neg hnot]
    simp only [List.mem_filter]
    exact ⟨List.mem_cons_self _ _, by decide⟩
  · unfold evictEvents
    rw [if_neg hnot]

/-- C4.  The claim says the annotation stored by getExtendedProps is
found again by googleEventToModel under the same shared key.  The writer
stores the JSON annotation under the key tkd.calendar.v1.CustomerAnnotation
while the reader looks up the differently spelled key
tkd.calendar.v1.CustomerAnnoation, so a created annotation is lost on
load even though the serialized payload round-trips. -/
theorem annotation_roundtrip_lost :
    (getExtendedProps [] (some ⟨"c-1"⟩)).lookup "tkd.calendar.v1.CustomerAnnotation"
      = some (protojsonCA ⟨"c-1"⟩)
    ∧ protojsonParseCA (protojsonCA ⟨"c-1"⟩) = some ⟨"c-1"⟩
    ∧ extractCustomerAnnotation (getExtendedProps [] (some ⟨"c-1"⟩)) = none := by
  refine ⟨by decide, by decide, by decide⟩

/-- C5.  The claim says a feed whose fetch errors, or whose poll
interval has not elapsed, keeps its previous event list after a refresh
cycle.  The cycle builds a fresh map and replaces the repository map
wholesale, so in both scenarios feed1, which previously held evPrev,
ends with no events at all: the new map is empty. -/
theorem feed_update_drops_previous_events :
    ((([("feed1", [evPrev])] : List (String × List Event))).lookup "feed1" = some [evPrev])
    ∧ updateRepo [("feed1", [evPrev])] [cfgFeed1] (fun _ => none) 0
        (fun _ => none) (fun _ => none) = []
    ∧ updateRepo [("feed1", [evPrev])] [cfgFeed1] (fun _ => some 0) 5
        (fun _ => none) (fun _ => some [{ itemId := "i", startAt := some 7 }]) = [] := by
  refine ⟨by decide, by decide, by decide⟩

/-- C10.  The claim says every element returned by the subscribed-feed
ListCalendars is a non-nil calendar and hidden feeds are simply absent.
The result slice is allocated with length equal to the number of feeds
and hidden feeds are skipped without shrinking it, so the hidden feed b
leaves a nil placeholder at its index. -/
theorem icalListCalendars_has_nil_placeholder :
    icalListCalendars "Local" [cfgVisible, cfgHidden]
      = [some { id := "a", name := "a", timezone := "Local", color := "red", readonly := true },
         none] := by
  decide

/-- C6.  For a cache state with an empty sync token, the sync cycle
clears the cached events, sets minTime to the start of the current local
day shifted back one year, and issues the full listing with time_min
equal to that minTime, show_deleted false and single_events false. -/
theorem fullResync_setup_spec (st : CacheState) (nowY nowM nowD : Int)
    (h : st.syncToken = "") :
    (loadEventsSetup st nowY nowM nowD).1.events = []
    ∧ (loadEventsSetup st nowY nowM nowD).1.minTime = goDateNanos (nowY - 1) nowM nowD 0
    ∧ (loadEventsSetup st nowY nowM nowD).2.timeMin
        = some (goDateNanos (nowY - 1) nowM nowD 0)
    ∧ (loadEventsSetup st nowY nowM nowD).2.showDeleted = some false
    ∧ (loadEventsSetup st nowY nowM nowD).2.singleEvents = some false := by
  simp [loadEventsSetup, h]

/-- C6 witness: on 2026-10-11 the cleared cache gets minTime equal to
the midnight of 2025-10-11, here evaluated to its nanosecond count. -/
theorem fullResync_setup_spec_witness :
    (loadEventsSetup { syncToken := "" } 2026 10 11).1.events = []
    ∧ (loadEventsSetup { syncToken := "" } 2026 10 11).1.minTime = 63895737600000000000 := by
  have h := fullResync_setup_spec { syncToken := "" } 2026 10 11 rfl
  refine ⟨h.1, ?_⟩
  rw [h.2.1]
  decide

/-- C9.  A MoveEvent request that resolves both calendars, where the
target calendar is read-only, is rejected with PermissionDenied before
the upstream move is invoked, so the origin calendar state is untouched;
the first component records that no upstream move was attempted. -/
theorem moveEvent_readonly_target (index : List (String × SvcCalendar))
    (userCal : String → Option String) (srcCalId srcUserId tgtCalId tgtUserId : String)
    (upstream : Option Unit) (calO calT : SvcCalendar)
    (hsrc : srcCalId ≠ "") (hO : index.lookup srcCalId = some calO)
    (htgt : tgtCalId ≠ "") (hT : index.lookup tgtCalId = some calT)
    (hRO : calT.readonly = true) :
    moveEvent index userCal srcCalId srcUserId tgtCalId tgtUserId upstream
      = (false, Except.error SvcError.permissionDenied) := by
  unfold moveEvent
  by_cases hro : calO.readonly
  · simp [hsrc, hO, hro]
  · simp [hsrc, hO, hro, htgt, hT, hRO]

/-- C9 witness: moving an event from writable calendar A onto read-only
calendar B is denied without an upstream move. -/
theorem moveEvent_readonly_target_witness :
    moveEvent idxMove (fun _ => none) "A" "" "B" "" (some ())
      = (false, Except.error SvcError.permissionDenied) := by
  exact moveEvent_readonly_target idxMove (fun _ => none) "A" "" "B" "" (some ())
    { calId := "A" } { calId := "B", readonly := true }
    (by decide) (by decide) (by decide) (by decide) rfl

/-- C1 counterexample.  The claim promises that every search with a
lower bound at or after a non-zero minTime is served from cache with the
filtered events.  At stPanic and srchCustomerAt100 (lower bound equal to
minTime, customer filter set, cached event without annotation) the scan
faults in the match predicate instead of reporting a served result. -/
theorem tryLoadFromCache_faulting_search :
    tryLoadFromCacheGo stPanic (some srchCustomerAt100) = none
    ∧ ∀ l : List Event, tryLoadFromCacheGo stPanic (some srchCustomerAt100) ≠ some (l, true) := by
  refine ⟨by decide, ?_⟩
  intro l h
  rw [show tryLoadFromCacheGo stPanic (some srchCustomerAt100) = none from by decide] at h
  exact Option.noConfusion h

/-- C3 counterexample.  The claim says every emitted free slot is longer
than five minutes.  On the range from 0 to 120 minutes with one event
covering the first 117 minutes, the emitted trailing slot spans the last
3 minutes: it is produced by the final append, which checks no
threshold. -/
theorem freeSlots_short_trailing_slot :
    (calculateFreeSlots "x" 0 (120 * nsPerMinute)
        [{ startTime := 0, endTime := some (117 * nsPerMinute) }]).map Prod.snd
      = some [slotEvent "x" (117 * nsPerMinute) (120 * nsPerMinute) "free-slot-end"]
    ∧ endD (slotEvent "x" (117 * nsPerMinute) (120 * nsPerMinute) "free-slot-end")
        - (slotEvent "x" (117 * nsPerMinute) (120 * nsPerMinute) "free-slot-end").startTime
      ≤ fiveMinutes := by
  refine ⟨by decide, by decide⟩

/-- C8.  On the range 12:00 to 14:00 with events 06:00 to 06:30 and
14:00 to 15:00 (times on January 1 of 2000 as in the unit test), exactly
one free slot is emitted and it spans 12:00 to 14:00. -/
theorem freeSlots_disjoint_case :
    (calculateFreeSlots "" (mkT 12 0) (mkT 14 0)
        [{ startTime := mkT 6 0, endTime := some (mkT 6 30) },
         { startTime := mkT 14 0, endTime := some (mkT 15 0) }]).map Prod.snd
      = some [slotEvent "" (mkT 12 0) (mkT 14 0) "free-slot-0"] := by
  decide

lemma insertByLess_mem (e a : Event) : ∀ l : List Event,
    (a ∈ insertByLess e l ↔ a = e ∨ a ∈ l) := by
  intro l
  induction l with
  | nil => simp [insertByLess]
  | cons f rest ih =>
    by_cases h : eventLess f e <;> simp [insertByLess, h, ih] <;> tauto

lemma sortEvents_mem (a : Event) : ∀ l : List Event, (a ∈ sortEvents l ↔ a ∈ l) := by
  intro l
  induction l with
  | nil => simp [sortEvents]
  | cons e rest ih =>
    simp only [sortEvents, insertByLess_mem, List.mem_cons, ih]

lemma eventOverlaps_cases (startR endR : Int) (e : Event) (et : Int)
    (h : eventOverlaps startR endR e et = true) :
    (startR ≤ e.startTime ∧ e.startTime < endR) ∨ (startR ≤ et ∧ et < endR)
    ∨ (e.startTime ≤ startR ∧ startR < et) ∨ (e.startTime ≤ endR ∧ endR < et) := by
  unfold eventOverlaps timeRangeIncludes at h
  simp only [Bool.or_eq_true, Bool.and_eq_true, decide_eq_true_eq] at h
  rcases h with ((h | h) | h) | h
  · exact Or.inl (by omega)
  · exact Or.inr (Or.inl (by omega))
  · exact Or.inr (Or.inr (Or.inl (by omega)))
  · exact Or.inr (Or.inr (Or.inr (by omega)))

lemma filterEvents_pre (startR endR : Int) (hlt : startR < endR) (events : List Event)
    (hvalid : ∀ e ∈ events, ∀ t, e.endTime = some t → e.startTime ≤ t) :
    ∀ e ∈ filterEvents startR endR events, freeSlotPre startR e := by
  intro e he
  unfold filterEvents at he
  rw [List.mem_filter] at he
  obtain ⟨hmem, hp⟩ := he
  rcases hE : e.endTime with _ | et
  · rw [hE] at hp; simp at hp
  · refine ⟨et, hE, hvalid e hmem et hE, ?_⟩
    rw [hE] at hp
    have hp2 : (if (e.fullDayEvent || decide (et = 0)) = true then false
        else eventOverlaps startR endR e et) = true := hp
    by_cases hfd : (e.fullDayEvent || decide (et = 0)) = true
    · rw [if_pos hfd] at hp2
      exact absurd hp2 (by simp)
    · rw [if_neg hfd] at hp2
      have hse : e.startTime ≤ et := hvalid e hmem et hE
      rcases eventOverlaps_cases startR endR e et hp2 with h | h | h | h <;> omega

lemma clampHi_eq_min (hi x : Int) : clampHi hi x = min x hi := by
  unfold clampHi
  split_ifs with h <;> simp only [decide_eq_true_eq] at h <;> omega

lemma clampLo_eq_max (lo x : Int) : clampLo lo x = max x lo := by
  unfold clampLo
  split_ifs with h <;> simp only [decide_eq_true_eq] at h <;> omega

lemma endD_slotEvent (calID : String) (s e2 : Int) (i : String) :
    endD (slotEvent calID s e2 i) = e2 := rfl

lemma startTime_slotEvent (calID : String) (s e2 : Int) (i : String) :
    (slotEvent calID s e2 i).startTime = s := rfl

lemma freeSlotsLoop_head_le (calID : String) (startR endR : Int) (i : Nat) (p f : Event)
    (r s : List Event)
    (h : freeSlotsLoop calID startR endR i (some p) (f :: r) = some s) :
    p.startTime ≤ f.startTime := by
  by_contra hcon
  push_neg at hcon
  simp [freeSlotsLoop, hcon] at h

lemma freeSlotsLoop_sorted (calID : String) (startR endR : Int) :
    ∀ (lst : List Event) (i : Nat) (prev : Option Event) (slots : List Event),
    freeSlotsLoop calID startR endR i prev lst = some slots →
    lst.Chain' (fun a b => a.startTime ≤ b.startTime) := by
  intro lst
  induction lst with
  | nil => intro i prev slots _; exact List.chain'_nil
  | cons e rest ih =>
    intro i prev slots h
    rcases hr : freeSlotsLoop calID startR endR (i + 1) (some e) rest with _ | s2
    · exfalso
      cases prev with
      | none => simp [freeSlotsLoop, hr] at h
      | some p =>
        by_cases hso : e.startTime < p.startTime <;> simp [freeSlotsLoop, hr, hso] at h
    · have hchain := ih (i + 1) (some e) s2 hr
      cases rest with
      | nil => simp
      | cons f r2 =>
        exact List.Chain'.cons (freeSlotsLoop_head_le calID startR endR (i + 1) e f r2 s2 hr)
          hchain

lemma freeSlotsLoop_spec (calID : String) (startR endR : Int) (hlt : startR < endR) :
    ∀ (lst : List Event) (i : Nat) (prev : Option Event) (slots : List Event),
    freeSlotsLoop calID startR endR i prev lst = some slots →
    (∀ f ∈ lst, freeSlotPre startR f) →
    (∀ p, prev = some p → freeSlotPre startR p) →
    (∀ sl ∈ slots,
        freeSlotLowEdge startR endR prev ≤ sl.startTime
        ∧ startR ≤ sl.startTime
        ∧ sl.startTime + fiveMinutes < endD sl
        ∧ endD sl ≤ endR
        ∧ (∀ u : Int, (∀ f ∈ lst, f.startTime ≤ u) → startR ≤ u → endD sl ≤ u))
    ∧ slots.Pairwise (fun a b => endD a ≤ b.startTime) := by
  intro lst
  induction lst with
  | nil =>
    intro i prev slots hrun _ _
    simp only [freeSlotsLoop] at hrun
    injection hrun with hrun
    subst hrun
    exact ⟨by simp, List.Pairwise.nil⟩
  | cons e rest ih =>
    intro i prev slots hrun hall hprev
    obtain ⟨te, hte, hste, hrte⟩ := hall e (by simp)
    have hendDe : endD e = te := by simp [endD, hte]
    have hallr : ∀ f ∈ rest, freeSlotPre startR f := fun f hf => hall f (by simp [hf])
    have hprevr : ∀ p, some e = some p → freeSlotPre startR p := by
      rintro p hp
      injection hp with hp
      subst hp
      exact ⟨te, hte, hste, hrte⟩
    rcases hr : freeSlotsLoop calID startR endR (i + 1) (some e) rest with _ | slots2
    · exfalso
      cases prev with
      | none => simp [freeSlotsLoop, hr] at hrun
      | some p =>
        by_cases hso : e.startTime < p.startTime <;> simp [freeSlotsLoop, hr, hso] at hrun
    · obtain ⟨ihAll, ihPW⟩ := ih (i + 1) (some e) slots2 hr hallr hprevr
      have hEoEdge : clampHi endR (clampLo startR e.startTime)
          = freeSlotLowEdge startR endR (some e) := by
        rw [clampHi_eq_min, clampLo_eq_max]
        simp [freeSlotLowEdge]
      have hEdgeTail : startR ≤ freeSlotLowEdge startR endR (some e) := by
        simp only [freeSlotLowEdge]
        omega
      cases prev with
      | none =>
        have hS0 : clampHi endR startR = startR := by
          rw [clampHi_eq_min]; omega
        have hEdge : freeSlotLowEdge startR endR none = startR := rfl
        simp only [freeSlotsLoop, hr, hS0, decide_eq_true_eq] at hrun
        by_cases hth : fiveMinutes
            < clampHi endR (clampLo startR e.startTime) - startR
        · rw [if_pos hth] at hrun
          injection hrun with hrun
          subst hrun
          constructor
          · intro sl hsl
            rcases List.mem_cons.mp hsl with hsl | hsl
            · subst hsl
              rw [startTime_slotEvent, endD_slotEvent, hEdge]
              refine ⟨le_refl _, le_refl _, by omega, ?_, ?_⟩
              · rw [clampHi_eq_min]; omega
              · intro u hu hsu
                have hue : e.startTime ≤ u := hu e (by simp)
                rw [clampHi_eq_min, clampLo_eq_max]
                omega
            · obtain ⟨h1, h2, h3, h4, h5⟩ := ihAll sl hsl
              refine ⟨by rw [hEdge]; omega, h2, h3, h4, ?_⟩
              intro u hu hsu
              exact h5 u (fun f hf => hu f (by simp [hf])) hsu
          · refine List.Pairwise.cons ?_ ihPW
            intro sl hsl
            rw [endD_slotEvent, hEoEdge]
            exact (ihAll sl hsl).1
        · rw [if_neg hth] at hrun
          injection hrun with hrun
          subst hrun
          constructor
          · intro sl hsl
            obtain ⟨h1, h2, h3, h4, h5⟩ := ihAll sl hsl
            refine ⟨by rw [hEdge]; omega, h2, h3, h4, ?_⟩
            intro u hu hsu
            exact h5 u (fun f hf => hu f (by simp [hf])) hsu
          · exact ihPW
      | some p =>
        obtain ⟨tp, htp, hstp, hrtp⟩ := hprev p rfl
        have hendDp : endD p = tp := by simp [endD, htp]
        by_cases hso : e.startTime < p.startTime
        · exfalso; simp [freeSlotsLoop, hr, hso] at hrun
        · have hEdgeMono : freeSlotLowEdge startR endR (some p)
              ≤ freeSlotLowEdge startR endR (some e) := by
            simp only [freeSlotLowEdge]
            omega
          have hEdgeS0 : freeSlotLowEdge startR endR (some p) ≤ clampHi endR (endD p) := by
            simp only [freeSlotLowEdge]
            rw [clampHi_eq_min, hendDp]
            omega
          have hS0R : startR ≤ clampHi endR (endD p) := by
            rw [clampHi_eq_min, hendDp]
            omega
          have hdso : decide (e.startTime < p.startTime) = false := by
            simpa using hso
          simp only [freeSlotsLoop, hr, hdso, Bool.not_false, if_true,
            decide_eq_true_eq] at hrun
          by_cases hth : fiveMinutes
              < clampHi endR (clampLo startR e.startTime) - clampHi endR (endD p)
          · rw [if_pos hth] at hrun
            injection hrun with hrun
            subst hrun
            constructor
            · intro sl hsl
              rcases List.mem_cons.mp hsl with hsl | hsl
              · subst hsl
                rw [startTime_slotEvent, endD_slotEvent]
                refine ⟨hEdgeS0, hS0R, by omega, ?_, ?_⟩
                · rw [clampHi_eq_min]; omega
                · intro u hu hsu
                  have hue : e.startTime ≤ u := hu e (by simp)
                  rw [clampHi_eq_min, clampLo_eq_max]
                  omega
              · obtain ⟨h1, h2, h3, h4, h5⟩ := ihAll sl hsl
                refine ⟨by omega, h2, h3, h4, ?_⟩
                intro u hu hsu
                exact h5 u (fun f hf => hu f (by simp [hf])) hsu
            · refine List.Pairwise.cons ?_ ihPW
              intro sl hsl
              rw [endD_slotEvent, hEoEdge]
              exact (ihAll sl hsl).1
          · rw [if_neg hth] at hrun
            injection hrun with hrun
            subst hrun
            constructor
            · intro sl hsl
              obtain ⟨h1, h2, h3, h4, h5⟩ := ihAll sl hsl
              refine ⟨by omega, h2, h3, h4, ?_⟩
              intro u hu hsu
              exact h5 u (fun f hf => hu f (by simp [hf])) hsu
            · exact ihPW

lemma chain_start_le_last :
    ∀ (l : List Event) (z : Event),
    l.Chain' (fun a b => a.startTime ≤ b.startTime) → l.getLast? = some z →
    ∀ f ∈ l, f.startTime ≤ z.startTime := by
  intro l
  induction l with
  | nil => intro z _ hz; cases hz
  | cons a rest ih =>
    intro z hchain hz f hf
    cases rest with
    | nil =>
      simp only [List.getLast?_singleton, Option.some_inj] at hz
      subst hz
      rcases List.mem_singleton.mp hf with rfl
      exact le_refl _
    | cons b r2 =>
      rw [List.chain'_cons] at hchain
      have hz2 : (b :: r2).getLast? = some z := by
        simpa [List.getLast?] using hz
      rcases List.mem_cons.mp hf with rfl | hf2
      · have hbz := ih z hchain.2 hz2 b (by simp)
        exact le_trans hchain.1 hbz
      · exact ih z hchain.2 hz2 f hf2

theorem calculateFreeSlots_slots_spec (calID : String) (startR endR : Int)
    (events res slots : List Event)
    (hlt : startR < endR)
    (hvalid : ∀ e ∈ events, ∀ t, e.endTime = some t → e.startTime ≤ t)
    (hrun : calculateFreeSlots calID startR endR events = some (res, slots)) :
    (∀ sl ∈ slots, startR ≤ sl.startTime ∧ sl.startTime < endD sl ∧ endD sl ≤ endR)
    ∧ (∀ sl ∈ slots, fiveMinutes < endD sl - sl.startTime ∨ sl.id = "free-slot-end")
    ∧ slots.Pairwise (fun a b => endD a ≤ b.startTime) := by
  have hfive : 0 < fiveMinutes := by norm_num [fiveMinutes, nsPerMinute]
  have hPre : ∀ e ∈ sortEvents (filterEvents startR endR events), freeSlotPre startR e := by
    intro e he
    exact filterEvents_pre startR endR hlt events hvalid e ((sortEvents_mem e _).mp he)
  simp only [calculateFreeSlots] at hrun
  rcases hloop : freeSlotsLoop calID startR endR 0 none
      (sortEvents (filterEvents startR endR events)) with _ | loopSlots
  · rw [hloop] at hrun
    exact absurd hrun (by simp)
  · rw [hloop] at hrun
    obtain ⟨ihAll, ihPW⟩ := freeSlotsLoop_spec calID startR endR hlt
      (sortEvents (filterEvents startR endR events)) 0 none loopSlots hloop hPre
      (by rintro p hp; cases hp)
    rcases hlast : (sortEvents (filterEvents startR endR events)).getLast? with _ | lastEvt
    · -- no filtered events: the single whole-range slot
      rw [hlast] at hrun
      have hrun2 : some
          (sortEvents (sortEvents (filterEvents startR endR events)
            ++ (loopSlots ++ [slotEvent calID startR endR "free-slot-end"])),
           loopSlots ++ [slotEvent calID startR endR "free-slot-end"])
          = some (res, slots) := hrun
      have hemp : sortEvents (filterEvents startR endR events) = [] :=
        List.getLast?_eq_none_iff.mp hlast
      rw [hemp] at hloop
      simp only [freeSlotsLoop] at hloop
      have hloop2 : ([] : List Event) = loopSlots := by injection hloop
      subst hloop2
      rw [Option.some_inj] at hrun2
      have hslots : slots = [slotEvent calID startR endR "free-slot-end"] := by
        have h2 := congrArg Prod.snd hrun2
        simpa using h2.symm
      subst hslots
      refine ⟨?_, ?_, ?_⟩
      · intro sl hsl
        rcases List.mem_singleton.mp hsl with rfl
        rw [startTime_slotEvent, endD_slotEvent]
        exact ⟨le_refl _, hlt, le_refl _⟩
      · intro sl hsl
        rcases List.mem_singleton.mp hsl with rfl
        exact Or.inr rfl
      · exact List.pairwise_singleton _ _
    · rw [hlast] at hrun
      have hrun2 : some
          (sortEvents (sortEvents (filterEvents startR endR events)
            ++ (if decide (endD lastEvt < endR) = true then
                  loopSlots ++ [slotEvent calID (endD lastEvt) endR "free-slot-end"]
                else loopSlots)),
           if decide (endD lastEvt < endR) = true then
             loopSlots ++ [slotEvent calID (endD lastEvt) endR "free-slot-end"]
           else loopSlots)
          = some (res, slots) := hrun
      simp only [decide_eq_true_eq] at hrun2
      have hmemLast := List.mem_of_mem_getLast? hlast
      obtain ⟨tl, htl, hstl, hrtl⟩ := hPre lastEvt hmemLast
      have hendDl : endD lastEvt = tl := by simp [endD, htl]
      have hAllLast : ∀ f ∈ sortEvents (filterEvents startR endR events),
          f.startTime ≤ endD lastEvt := by
        intro f hf
        have hchain := freeSlotsLoop_sorted calID startR endR
          (sortEvents (filterEvents startR endR events)) 0 none loopSlots hloop
        have h1 := chain_start_le_last _ lastEvt hchain hlast f hf
        omega
      by_cases hcmp : endD lastEvt < endR
      · rw [if_pos hcmp, Option.some_inj] at hrun2
        have hslots : slots
            = loopSlots ++ [slotEvent calID (endD lastEvt) endR "free-slot-end"] := by
          have h2 := congrArg Prod.snd hrun2
          simpa using h2.symm
        subst hslots
        refine ⟨?_, ?_, ?_⟩
        · intro sl hsl
          rcases List.mem_append.mp hsl with hsl | hsl
          · obtain ⟨_, h2, h3, h4, _⟩ := ihAll sl hsl
            exact ⟨h2, by omega, h4⟩
          · rcases List.mem_singleton.mp hsl with rfl
            rw [startTime_slotEvent, endD_slotEvent]
            exact ⟨by omega, hcmp, le_refl _⟩
        · intro sl hsl
          rcases List.mem_append.mp hsl with hsl | hsl
          · obtain ⟨_, _, h3, _, _⟩ := ihAll sl hsl
            exact Or.inl (by omega)
          · rcases List.mem_singleton.mp hsl with rfl
            exact Or.inr rfl
        · refine List.pairwise_append.mpr ⟨ihPW, List.pairwise_singleton _ _, ?_⟩
          intro a ha b hb
          rcases List.mem_singleton.mp hb with rfl
          rw [startTime_slotEvent]
          obtain ⟨_, _, _, _, h5⟩ := ihAll a ha
          exact h5 (endD lastEvt) hAllLast (by omega)
      · rw [if_neg hcmp, Option.some_inj] at hrun2
        have hslots : slots = loopSlots := by
          have h2 := congrArg Prod.snd hrun2
          simpa using h2.symm
        subst hslots
        refine ⟨?_, ?_, ihPW⟩
        · intro sl hsl
          obtain ⟨_, h2, h3, h4, _⟩ := ihAll sl hsl
          exact ⟨h2, by omega, h4⟩
        · intro sl hsl
          obtain ⟨_, _, h3, _, _⟩ := ihAll sl hsl
          exact Or.inl (by omega)

theorem calculateFreeSlots_slots_spec_witness :
    (∀ sl ∈ slotsW3, (0 : Int) ≤ sl.startTime ∧ sl.startTime < endD sl
        ∧ endD sl ≤ 120 * nsPerMinute)
    ∧ (∀ sl ∈ slotsW3, fiveMinutes < endD sl - sl.startTime ∨ sl.id = "free-slot-end")
    ∧ slotsW3.Pairwise (fun a b => endD a ≤ b.startTime) :=
  calculateFreeSlots_slots_spec "w" 0 (120 * nsPerMinute) [evW3] resW3 slotsW3
    (by norm_num [nsPerMinute])
    (by
      intro e he t ht
      rw [List.mem_singleton] at he
      subst he
      simp only [evW3] at ht
      injection ht with ht
      subst ht
      decide)
    (by decide)

end CisCal
